import Mathlib

/-!
Verification development for the `ego-rs` memory/reflection service
(repository `latent-journey`, directory `src/services/ego-rs/src`).

The Rust code is shallowly embedded:
* `f32`/`f64` arithmetic on facet values, similarities and metrics is
  modelled exactly over `ℚ`; the Rust expression `0.0 / 0.0` (`NaN`)
  compared with `> c` yields `false`, and the `ℚ` model agrees because
  division by zero yields `0` and the thresholds are positive.
* `chrono::DateTime<Utc>` is modelled at second precision as `Int`
  (unix seconds), matching the `timestamp()` accessor used throughout.
* `HashMap<String, serde_json::Value>` facet maps are modelled as
  association lists; `serde_json::Value` scalars as `JsonVal`.
* Rust strings are Lean strings; `str::to_lowercase` and
  `split_whitespace` are modelled per character (exact on ASCII).
-/

set_option maxRecDepth 8000


/-- Scalar JSON values as stored in a memory's `facets` map
(`serde_json::Value`). -/
inductive JsonVal where
  | num (q : ℚ)
  | str (s : String)
  | bool (b : Bool)
  | null
deriving DecidableEq

/-- `serde_json::Value::as_f64`: numeric values only. -/
def JsonVal.asNum : JsonVal → Option ℚ
  | .num q => some q
  | _ => none

/-- `types.rs` `Modality`. -/
inductive Modality where
  | Vision
  | Speech
  | Text
  | Concept
deriving DecidableEq

/-- `types.rs` `Memory`.  `timestamp` is unix seconds (`DateTime<Utc>`
at the second precision used by `timestamp()` and the JSONL `ts` field). -/
structure Memory where
  id : String
  timestamp : Int
  modality : Modality
  embedding : List ℚ
  content : String
  facets : List (String × JsonVal)
  tags : List String
deriving DecidableEq

/-- `m.facets.get(key).and_then(|v| v.as_f64())`. -/
def facetNum (m : Memory) (key : String) : Option ℚ :=
  (m.facets.lookup key).bind JsonVal.asNum

/-! ## Rational division in kernel-computable form

Mathlib's `Div ℚ` instance does not reduce inside the kernel, so the
embedding writes divisions with `mkRat`/`Rat.divInt`; the two lemmas
below show these agree with the field division `/` that the Rust
source expressions (`x / y` on floats) are modelled by. -/

/-- `q / n` for a rational `q` and a natural divisor `n`
(kernel-computable form). -/
def ratDivNat (q : ℚ) (n : ℕ) : ℚ := Rat.divInt q.num (q.den * n)

/-- `a / b` for two natural counts (kernel-computable form; a zero
divisor yields `0`, matching the model of `NaN` comparisons explained
at `are_thoughts_related`). -/
def natDivNat (a b : ℕ) : ℚ := mkRat a b

/-- Rational addition in kernel-computable form (`Rat.add` itself is
`@[irreducible]`). -/
def ratAdd (a b : ℚ) : ℚ :=
  mkRat (a.num * b.den + b.num * a.den) (a.den * b.den)

/-- Sum of a list of rationals in kernel-computable form. -/
def ratSum (l : List ℚ) : ℚ := l.foldr ratAdd 0

/-! ## Consolidation gate (`consolidation.rs`, `ConsolidationEngine`) -/

/-- `ConsolidationEngine::new` field `min_thoughts_for_consolidation`. -/
def min_thoughts_for_consolidation : ℕ := 3

/-- `ConsolidationEngine::new` field `consolidation_threshold` (0.6). -/
def consolidation_threshold : ℚ := mkRat 6 10

/-- `ConsolidationEngine::should_consolidate`: fewer than the minimum
count refuses; otherwise the present `"memory_consolidation_need"`
facet values are summed (`filter_map`) but divided by the *total*
number of memories (`/ memories.len()`), and the result is compared
with `>=` against the threshold. -/
def should_consolidate (memories : List Memory) : Bool :=
  if memories.length < min_thoughts_for_consolidation then false
  else
    let avg : ℚ :=
      ratDivNat
        (ratSum (memories.filterMap (fun m => facetNum m "memory_consolidation_need")))
        memories.length
    decide (consolidation_threshold ≤ avg)

/-- The mean the spec describes for the gate: absent facets excluded
from **both** the sum and the divisor (written from the spec's words,
for comparison with `should_consolidate` above). -/
def specExcludedMean (memories : List Memory) : ℚ :=
  let vals := memories.filterMap (fun m => facetNum m "memory_consolidation_need")
  ratDivNat (ratSum vals) vals.length

/-! ## Relatedness predicate and grouping (`consolidation.rs`) -/

/-- Split a character list at whitespace, skipping empty fragments,
accumulating the current token in reverse (`str::split_whitespace`). -/
def splitWsAux : List Char → List Char → List String
  | [], acc => if acc.isEmpty then [] else [String.mk acc.reverse]
  | c :: cs, acc =>
    if c.isWhitespace then
      if acc.isEmpty then splitWsAux cs []
      else String.mk acc.reverse :: splitWsAux cs []
    else splitWsAux cs (c :: acc)

/-- `str::to_lowercase` + `split_whitespace`: the whitespace-separated
tokens of the lower-cased content string. -/
def tokensOf (s : String) : List String :=
  splitWsAux (s.toList.map Char.toLower) []

/-- `HashSet` collection of the tokens. -/
def wordSet (s : String) : Finset String :=
  (tokensOf s).toFinset

/-- `ConsolidationEngine::are_thoughts_related`: timestamps within one
hour **and** Jaccard similarity of the token sets strictly above 0.3.
For two contents with no tokens the Rust code computes `0.0/0.0 = NaN`
and `NaN > 0.3` is `false`; the model computes `0/0 = 0` and
`0 > 3/10` is `false`, in agreement. -/
def are_thoughts_related (t1 t2 : Memory) : Bool :=
  if 3600 < (t1.timestamp - t2.timestamp).natAbs then false
  else
    let words1 := wordSet t1.content
    let words2 := wordSet t2.content
    let inter := (words1 ∩ words2).card
    let uni := (words1 ∪ words2).card
    decide (mkRat 3 10 < natDivNat inter uni)

/-- Insert `a` into `l` before the first element `b` with `le a b`.
Used to model Rust's stable `sort_by`. -/
def insertSorted (le : α → α → Bool) (a : α) : List α → List α
  | [] => [a]
  | b :: bs => if le a b then a :: b :: bs else b :: insertSorted le a bs

/-- Stable insertion sort.  For a comparator that is a total preorder
(all comparators used by the service are), a stable sort's output is
unique, so this computes exactly the list Rust's stable
`slice::sort_by` produces. -/
def sortBy (le : α → α → Bool) : List α → List α
  | [] => []
  | a :: as => insertSorted le a (sortBy le as)

/-- The relatedness predicate the claim describes: identical except
that the Jaccard threshold is inclusive (`≥ 0.3`).  Written from the
spec's words for comparison with `are_thoughts_related`. -/
def specRelated (t1 t2 : Memory) : Prop :=
  (t1.timestamp - t2.timestamp).natAbs ≤ 3600 ∧
    mkRat 3 10 ≤
      natDivNat (wordSet t1.content ∩ wordSet t2.content).card
        (wordSet t1.content ∪ wordSet t2.content).card

instance (t1 t2 : Memory) : Decidable (specRelated t1 t2) := by
  unfold specRelated; infer_instance

/-- One step of `ConsolidationEngine::group_related_thoughts`.
`all` is the full enumerated memory list (the inner `for` loop scans
everything), `rest` the remaining outer-loop suffix, `used` the
`used_indices` set.  Adding a freshly matched index to `used_indices`
during the inner scan never affects that same scan (each index is
visited once), so the inner loop is a single filter against
`i :: used`. -/
def groupStep (all : List (ℕ × Memory)) :
    List (ℕ × Memory) → List ℕ → List (List (ℕ × Memory))
  | [], _ => []
  | (i, m) :: rest, used =>
    if i ∈ used then groupStep all rest used
    else
      let rel := all.filter
        (fun p => decide (p.1 ∉ i :: used) && are_thoughts_related m p.2)
      let group := (i, m) :: rel
      let used2 := (i :: used) ++ rel.map Prod.fst
      if 2 ≤ group.length then group :: groupStep all rest used2
      else groupStep all rest used2

/-- `ConsolidationEngine::group_related_thoughts` on index/memory
pairs (the Rust function returns references; indices stand for
reference identity). -/
def group_related_idx (memories : List Memory) : List (List (ℕ × Memory)) :=
  groupStep memories.enum memories.enum []

/-- `ConsolidationEngine::group_related_thoughts`, values only. -/
def group_related_thoughts (memories : List Memory) : List (List Memory) :=
  (group_related_idx memories).map (fun g => g.map Prod.snd)

/-! ## Theme extraction and consolidation driver (`consolidation.rs`) -/

/-- `str::contains(keyword)`: substring test, via prefix-at-offset. -/
def containsSubstr (s pat : String) : Bool :=
  (List.range (s.toList.length + 1)).any
    (fun k => pat.toList.isPrefixOf (s.toList.drop k))

/-- Whole-string `str::to_lowercase` (per character; exact on ASCII). -/
def lowerStr (s : String) : String :=
  String.mk (s.toList.map Char.toLower)

/-- The fixed `theme_keywords` table of `extract_themes`. -/
def theme_keywords : List (String × List String) :=
  [("conversation", ["talk", "speak", "discuss", "conversation", "chat"]),
   ("introduction", ["introduce", "name", "hello", "meet", "greet"]),
   ("sustainability", ["climate", "sustainability", "environment", "green", "renewable"]),
   ("research", ["research", "study", "investigate", "analyze", "data"]),
   ("festival", ["festival", "event", "celebration", "dance", "performance"]),
   ("food", ["food", "eat", "drink", "coffee", "tea", "meal"]),
   ("clothing", ["clothes", "shirt", "dress", "wear", "fashion"])]

/-- `ConsolidationEngine::extract_themes`: a theme is kept when at
least 2 group members' lower-cased contents contain one of its
keywords.  (Rust iterates a `HashMap` in nondeterministic order; the
model fixes the table order, which no claim depends on.) -/
def extract_themes (thoughts : List Memory) : List String :=
  theme_keywords.filterMap (fun tk =>
    let count := thoughts.countP (fun t =>
      tk.2.any (fun kw => containsSubstr (lowerStr t.content) kw))
    if 2 ≤ count then some tk.1 else none)

/-- `types.rs` `ConsolidationRequest`. -/
structure ConsolidationRequest where
  force : Option Bool
  max_experiences : Option ℕ
deriving DecidableEq

/-- `types.rs` `ConsolidationResult` without the `consolidation_time`
field (which is `Utc::now()`, outside the deterministic model). -/
structure ConsolidationOutcome where
  experiences_created : ℕ
  thoughts_consolidated : ℕ
  themes_identified : List String
deriving DecidableEq

/-- The accumulation loop of `consolidate_thoughts` over the first
`max_experiences` groups: each group of size ≥ 2 yields one
experience (whose themes, in the engine-without-LLM path, are
`extract_themes` of the group). -/
def processGroups (groups : List (List Memory)) : ConsolidationOutcome :=
  groups.foldl
    (fun acc g =>
      if g.length < 2 then acc
      else
        { experiences_created := acc.experiences_created + 1,
          thoughts_consolidated := acc.thoughts_consolidated + g.length,
          themes_identified := acc.themes_identified ++ extract_themes g })
    ⟨0, 0, []⟩

/-- `ConsolidationEngine::consolidate_thoughts` (engine without a
reflection backend, i.e. the deterministic path): gate unless forced,
then process the first `max_experiences` (default 5) groups. -/
def consolidate_thoughts (memories : List Memory)
    (request : ConsolidationRequest) : ConsolidationOutcome :=
  let force := request.force.getD false
  let max_experiences := request.max_experiences.getD 5
  if !force && !should_consolidate memories then ⟨0, 0, []⟩
  else processGroups ((group_related_thoughts memories).take max_experiences)

/-! ## Fallback thought (`handlers.rs`, `generate_fallback_thought`) -/

/-- `types.rs` `ThoughtMetrics` (f32 metrics as exact rationals). -/
structure ThoughtMetrics where
  self_awareness : ℚ
  memory_consolidation_need : ℚ
  emotional_stability : ℚ
  creative_insight : ℚ
deriving DecidableEq

/-- `types.rs` `EgoThought` (`generated_at` in unix seconds). -/
structure EgoThought where
  id : String
  title : String
  thought : String
  metrics : ThoughtMetrics
  consolidate : List String
  generated_at : Int
  context_hash : String
  model : String
deriving DecidableEq

/-- The modality display string used across the service. -/
def modalityTag : Modality → String
  | .Vision => "vision"
  | .Speech => "speech"
  | .Text => "text"
  | .Concept => "concept"

/-- A single-quote character (ASCII 39), used by the fallback
format strings. -/
def squote : String := String.singleton (Char.ofNat 39)

/-- `handlers.rs` `generate_fallback_thought`.  `Uuid::new_v4()` and
`Utc::now()` are the only nondeterministic inputs and are passed in
as `freshId` and `now`; everything else is computed exactly as in the
source: counts and events scan only the first 5 memories (Concept
counts as text), the three format strings are reproduced verbatim,
and the metrics follow the fixed rules. -/
def generate_fallback_thought (memories : List Memory)
    (user_query : Option String) (freshId : String) (now : Int) : EgoThought :=
  let first5 := memories.take 5
  let vision_count := first5.countP (fun m => decide (m.modality = Modality.Vision))
  let speech_count := first5.countP (fun m => decide (m.modality = Modality.Speech))
  let text_count := first5.countP (fun m =>
    decide (m.modality = Modality.Text) || decide (m.modality = Modality.Concept))
  let recent_events := first5.filterMap (fun m =>
    if m.content = "" then none
    else some ("[" ++ modalityTag m.modality ++ "] " ++ m.content))
  let tally := toString vision_count ++ " vision, " ++ toString speech_count
    ++ " speech, and " ++ toString text_count
  let thought_content :=
    match user_query with
    | some query =>
        "Processing query: " ++ squote ++ query ++ squote ++ ". Recent events: "
          ++ String.intercalate "; " recent_events
          ++ ". I observe " ++ tally ++ " text events."
    | none =>
        if recent_events.isEmpty then
          "I have " ++ tally
            ++ " text memories, but no specific content to reflect on."
        else
          "I observed: " ++ String.intercalate "; " recent_events
            ++ ". This gives me " ++ tally ++ " text memories to process."
  let total_memories := memories.length
  { id := freshId,
    title := "Fallback Reflection",
    thought := thought_content,
    metrics :=
      { self_awareness := if 0 < total_memories then mkRat 6 10 else mkRat 3 10,
        memory_consolidation_need :=
          if 3 < total_memories then mkRat 7 10 else mkRat 4 10,
        emotional_stability := mkRat 5 10,
        creative_insight :=
          if 0 < vision_count ∧ 0 < speech_count then mkRat 6 10
          else mkRat 3 10 },
    consolidate :=
      if 2 < total_memories then (memories.take 3).map Memory.id else [],
    generated_at := now,
    context_hash := "fallback_" ++ toString total_memories,
    model := "fallback" }

/-! ## Reflection response parsing (`reflection.rs`) -/

/-- The opening brace character. -/
def lbrace : Char := Char.ofNat 123

/-- The closing brace character. -/
def rbrace : Char := Char.ofNat 125

/-- Index of the last occurrence of `c` (`str::rfind`). -/
def lastIdxOf (c : Char) (cs : List Char) : Option ℕ :=
  (cs.reverse.findIdx? (fun d => d == c)).map (fun k => cs.length - 1 - k)

/-- `reflection.rs` `ReflectionResponse` (the deserialized shape). -/
structure ReflectionResponse where
  title : String
  thought : String
  metrics : ThoughtMetrics
  consolidate : List String
deriving DecidableEq

/-- `ReflectionEngine::parse_reflection_response`.  `jsonParse`
abstracts `serde_json::from_str::<ReflectionResponse>` (an external
library), returning `none` on parse failure.  The result is `none`
when the Rust code panics: the slice `&response[start..=end]` is
invalid whenever the first brace starts more than one position after
the last closing brace.  When `start = end + 1` the slice is the empty
string, on which `serde_json` always fails, hence the direct error.
Braces are ASCII, so char indices and Rust's byte indices order and
space identically here. -/
def parse_reflection_response
    (jsonParse : String → Option ReflectionResponse)
    (response : String) : Option (Except String ReflectionResponse) :=
  let cs := response.toList
  match cs.findIdx? (fun c => c == lbrace), lastIdxOf rbrace cs with
  | some s, some e =>
    if s ≤ e then
      let json_str := String.mk ((cs.drop s).take (e + 1 - s))
      match jsonParse json_str with
      | none => some (Except.error "serde_json parse failure")
      | some parsed =>
        if parsed.title = "" ∨ parsed.thought = "" then
          some (Except.error "Invalid reflection response: missing title or thought")
        else if 5 < parsed.consolidate.length then
          some (Except.error "Too many consolidation suggestions")
        else some (Except.ok parsed)
    else if s = e + 1 then some (Except.error "serde_json parse failure")
    else none
  | _, _ => some (Except.error "No JSON found in response")

/-! ## Relevance selection (`memory.rs`, `select_relevant_memories`) -/

/-- The `limits`/`modalities` tables of `select_relevant_memories`:
per-modality caps 8/8/8/4 taken in the fixed order vision, speech,
text, concept. -/
def modality_limits : List (Modality × ℕ) :=
  [(Modality.Vision, 8), (Modality.Speech, 8), (Modality.Text, 8),
   (Modality.Concept, 4)]

/-- `memory.rs` `select_relevant_memories`.  When a focus embedding is
given the Rust code ranks by descending `f32` cosine similarity
against it; the model abstracts that whole ranking key into a
rational-valued `score` function (`score = some f`), and uses the
recency comparator when no focus embedding is present
(`score = none`).  `sort_by` is stable, as is `mergeSort`.  The ranked
list is then partitioned by modality preserving order (`HashMap` of
`Vec`s in push order) and a fixed head of each partition is taken in
the fixed modality order, before truncating to `max_count`. -/
def select_relevant_memories (memories : List Memory)
    (score : Option (Memory → ℚ)) (max_count : ℕ) : List Memory :=
  let selected :=
    match score with
    | some f => sortBy (fun a b => decide (f b ≤ f a)) memories
    | none => sortBy (fun a b => decide (b.timestamp ≤ a.timestamp)) memories
  let result := modality_limits.flatMap (fun ml =>
    (selected.filter (fun m => decide (m.modality = ml.1))).take ml.2)
  result.take max_count

/-! ## JSONL persistence (`memory.rs`) -/

/-- The JSONL record written by `save_to_jsonl` /
`append_memory_to_jsonl`: the fields of the `json!` object (numbers
kept exact). -/
structure MemoryEvent where
  embedding_id : String
  ts : Int
  source : String
  facets : List (String × JsonVal)
  content : String
  tags : List String
  embedding : List ℚ
deriving DecidableEq

/-- The record `append_memory_to_jsonl` (and `save_to_jsonl`, per
memory) writes for a memory. -/
def append_memory_to_jsonl (m : Memory) : MemoryEvent :=
  { embedding_id := m.id,
    ts := m.timestamp,
    source := modalityTag m.modality,
    facets := m.facets,
    content := m.content,
    tags := m.tags,
    embedding := m.embedding }

/-- Largest unix timestamp `chrono` represents
(262143-12-31T23:59:59 UTC). -/
def chronoMaxTs : Int := 8210298412799

/-- Smallest unix timestamp `chrono` represents
(-262144-01-01T00:00:00 UTC). -/
def chronoMinTs : Int := -8334632851200

/-- `DateTime::from_timestamp(ts, 0)`: `None` outside chrono's
representable range. -/
def from_timestamp (ts : Int) : Option Int :=
  if chronoMinTs ≤ ts ∧ ts ≤ chronoMaxTs then some ts else none

/-- One line of `MemoryStore::load_from_jsonl`, turning a parsed
record back into a `Memory`.  `ts` is read with
`as_u64().unwrap_or(0)` — a negative stored timestamp therefore
collapses to `0` — and `DateTime::from_timestamp(ts, 0)` falls back
to `Utc::now()` (the `now` parameter) when out of range.  The
`embedding` array is read with `filter_map(as_f64)`, the identity on
an all-numeric array. -/
def load_from_jsonl_line (e : MemoryEvent) (now : Int) : Memory :=
  let ts : Int := if 0 ≤ e.ts then e.ts else 0
  { id := e.embedding_id,
    timestamp := (from_timestamp ts).getD now,
    modality :=
      if e.source = "vision" then Modality.Vision
      else if e.source = "speech" then Modality.Speech
      else if e.source = "concept" then Modality.Concept
      else Modality.Text,
    embedding := e.embedding,
    content := e.content,
    facets := e.facets,
    tags := e.tags }

/-! ## Summary fallback (`consolidation.rs`, `generate_summary`) -/

/-- Total UTF-8 byte length of a character list (Rust `str::len`). -/
def utf8Len (cs : List Char) : ℕ :=
  (cs.map Char.utf8Size).sum

/-- Take exactly `n` UTF-8 bytes from the front: `some prefix` when
byte `n` is a character boundary, `none` — the Rust slice panic of
`&content[..n]` — when byte `n` falls inside a multi-byte character. -/
def utf8Take : ℕ → List Char → Option (List Char)
  | 0, _ => some []
  | _ + 1, [] => none
  | n + 1, c :: cs =>
    if c.utf8Size ≤ n + 1 then
      (utf8Take (n + 1 - c.utf8Size) cs).map (fun ds => c :: ds)
    else none

/-- The per-thought excerpt of `generate_summary`: contents longer
than 100 bytes are sliced to their first 97 bytes (`&content[..97]`,
which panics — `none` — off a character boundary) plus `"..."`. -/
def summarize_content (content : String) : Option String :=
  if 100 < utf8Len content.toList then
    (utf8Take 97 content.toList).map (fun cs => String.mk cs ++ "...")
  else some content

/-- The `for thought in thoughts` loop of `generate_summary`,
pushing one excerpt per member; a panic (`none`) anywhere aborts the
whole computation. -/
def collectSummaries : List Memory → Option (List String)
  | [] => some []
  | t :: ts =>
    match summarize_content t.content, collectSummaries ts with
    | some s, some rest => some (s :: rest)
    | _, _ => none

/-- `ConsolidationEngine::generate_summary` (the `_llm_prompt`
argument is unused in the source).  `none` models the slice panic. -/
def generate_summary (thoughts : List Memory) : Option String :=
  match collectSummaries thoughts with
  | none => none
  | some summaries =>
    some (if summaries.length ≤ 3 then String.intercalate " | " summaries
      else String.intercalate " | " (summaries.take 3)
        ++ " | ... and " ++ toString (summaries.length - 3) ++ " more thoughts")

/-! ## Experience listing (`handlers.rs`, `get_ltm_experiences`) -/

/-- `types.rs` `Experience` (timestamps in unix seconds). -/
structure Experience where
  id : String
  title : String
  summary : String
  consolidated_from : List String
  created_at : Int
  consolidated_at : Int
  themes : List String
  emotional_tone : ℚ
  importance : ℚ
  context_hash : String
  tags : List String
deriving DecidableEq

/-- Modelled from the spec: `MemoryStore::get_experiences` is not
under `src/`; per the spec the store is a "keyed collection of …
Experience records" providing enumeration, so the enumeration is an
arbitrary list of the stored experiences in unspecified (hash-map)
order. -/
def get_experiences (stored : List Experience) : List Experience :=
  stored

/-- `handlers.rs` `get_ltm_experiences`: the `limit` truncation is
applied FIRST, and only then is the kept prefix sorted by
`created_at` descending (stable `sort_by`). -/
def get_ltm_experiences (stored : List Experience)
    (limit : Option ℕ) : List Experience :=
  let experiences := get_experiences stored
  let truncated :=
    match limit with
    | some l => experiences.take l
    | none => experiences
  sortBy (fun a b => decide (b.created_at ≤ a.created_at)) truncated

/-! ## Concrete inputs used by the claim theorems below -/

/-- A memory with the given id, timestamp and content, empty in its
remaining fields; used by the concrete instances below. -/
def mkMem (id : String) (ts : Int) (content : String) : Memory :=
  { id := id, timestamp := ts, modality := Modality.Text, embedding := [],
    content := content, facets := [], tags := [] }

/-- Three memories, exactly one of which carries the
`"memory_consolidation_need"` facet, at value 0.9. -/
def c1CexMems : List Memory :=
  [{ mkMem "m1" 0 "alpha" with
     facets := [("memory_consolidation_need", JsonVal.num (mkRat 9 10))] },
   mkMem "m2" 0 "beta", mkMem "m3" 0 "gamma"]

/-- First memory of the boundary pair: six tokens. -/
def c2Mem1 : Memory := mkMem "t1" 0 "a b c d e f"

/-- Second memory of the boundary pair: seven tokens, three shared,
giving Jaccard 3/10 exactly. -/
def c2Mem2 : Memory := mkMem "t2" 0 "a b c x y z w"

/-- Two memories 10 minutes apart whose identical content is the
single space " " — non-empty as a string, but with no tokens. -/
def c3Cex1 : Memory := mkMem "w1" 0 " "

/-- Partner of `c3Cex1`, 600 seconds later, same content. -/
def c3Cex2 : Memory := mkMem "w2" 600 " "

/-- Two related concrete memories: identical tokenful content, 600
seconds apart. -/
def c3Wit1 : Memory := mkMem "h1" 0 "hello world"

/-- Partner of `c3Wit1`, 10 minutes later. -/
def c3Wit2 : Memory := mkMem "h2" 600 "hello world"

/-- Same content as `c3Wit1` but 2 hours later. -/
def c3Wit3 : Memory := mkMem "h3" 7200 "hello world"

/-- A `serde_json` stand-in that fails on every input, used for the
concrete parsing instances (the inputs below never reach the JSON
parser). -/
def jsonParseFail : String → Option ReflectionResponse := fun _ => none

/-- Three concrete memories (one Vision, two Text). -/
def c7Mems : List Memory :=
  [mkMem "a" 3 "x", mkMem "b" 9 "y",
   { mkMem "c" 5 "z" with modality := Modality.Vision }]

/-- A memory timestamped one second before the epoch. -/
def c8CexMem : Memory :=
  { id := "neg", timestamp := -1, modality := Modality.Speech,
    embedding := [mkRat 1 2], content := "x", facets := [], tags := ["t"] }

/-- A fully populated concrete memory with timestamp 42. -/
def c8WitMem : Memory :=
  { id := "w", timestamp := 42, modality := Modality.Concept,
    embedding := [mkRat 1 3, mkRat 2 1], content := "hello",
    facets := [("k", JsonVal.str "v")], tags := ["a", "b"] }

/-- A content of 102 bytes whose bytes 96–97 are the two bytes of one
character (`é`): byte 97 is not a boundary. -/
def c9PanicMem : Memory :=
  mkMem "panic" 0 (String.mk (List.replicate 96 (Char.ofNat 97)
    ++ Char.ofNat 233 :: List.replicate 4 (Char.ofNat 97)))

/-- An experience created at the epoch (sole non-default field used by
the claim is `created_at`). -/
def c10Old : Experience :=
  { id := "old", title := "t", summary := "s", consolidated_from := [],
    created_at := 0, consolidated_at := 0, themes := [],
    emotional_tone := mkRat 1 2, importance := mkRat 1 2,
    context_hash := "h", tags := [] }

/-- An experience created 100 seconds after `c10Old` (more recent). -/
def c10New : Experience :=
  { c10Old with id := "new", created_at := 100 }

/-- The store enumeration that lists the older experience first. -/
def c10Stored : List Experience := [c10Old, c10New]

/-! # Theorems -/

theorem ratDivNat_eq (q : ℚ) (n : ℕ) : ratDivNat q n = q / n := by
  unfold ratDivNat
  rw [Rat.divInt_eq_div]
  push_cast
  rw [div_mul_eq_div_div, Rat.num_div_den]

theorem natDivNat_eq (a b : ℕ) : natDivNat a b = (a : ℚ) / b := by
  unfold natDivNat
  rw [Rat.mkRat_eq_div]
  push_cast
  rfl

theorem ratAdd_eq (a b : ℚ) : ratAdd a b = a + b :=
  (Rat.add_def' a b).symm

theorem ratSum_eq (l : List ℚ) : ratSum l = l.sum := by
  unfold ratSum
  induction l with
  | nil => rfl
  | cons a l ih => rw [List.foldr_cons, List.sum_cons, ih, ratAdd_eq]

/-! ## C1 — consolidation gate -/

/-- A facet sum over present values equals the sum over all memories
with absent facets contributing zero. -/
theorem sum_filterMap_facet (l : List Memory) (key : String) :
    (l.filterMap (fun m => facetNum m key)).sum
      = (l.map (fun m => (facetNum m key).getD 0)).sum := by
  induction l with
  | nil => rfl
  | cons a l ih =>
    cases h : facetNum a key <;>
      simp [List.filterMap_cons, h, ih]

/-- **C1 counterexample.**  On three memories with a single present
consolidation-need facet of 0.9, the mean over *present* facets (the
claim's mean, absent facets excluded) is 0.9 ≥ 0.6, so the claim says
the gate passes; `should_consolidate` divides the present-facet sum by
the total memory count (giving 0.3) and refuses. -/
theorem c1_counterexample :
    min_thoughts_for_consolidation ≤ c1CexMems.length ∧
    consolidation_threshold ≤ specExcludedMean c1CexMems ∧
    should_consolidate c1CexMems = false := by
  decide

/-- **C1 (amended).**  The gate returns false for fewer than 3
memories regardless of facets; for 3 or more it returns true exactly
when the mean *with absent facets counted as zero* (present-facet sum
divided by the total memory count) is ≥ 0.6; and
`consolidate_thoughts` with `force = true` bypasses the gate
entirely, going straight to grouping and processing. -/
theorem c1_gate_and_force (mems : List Memory) (req : ConsolidationRequest) :
    (mems.length < min_thoughts_for_consolidation →
      should_consolidate mems = false) ∧
    (min_thoughts_for_consolidation ≤ mems.length →
      (should_consolidate mems = true ↔
        consolidation_threshold ≤
          (mems.map (fun m => (facetNum m "memory_consolidation_need").getD 0)).sum
            / (mems.length : ℚ))) ∧
    (req.force = some true →
      consolidate_thoughts mems req =
        processGroups ((group_related_thoughts mems).take
          (req.max_experiences.getD 5))) := by
  refine ⟨fun h => ?_, fun h => ?_, fun h => ?_⟩
  · unfold should_consolidate
    rw [if_pos h]
  · unfold should_consolidate
    rw [if_neg (Nat.not_lt.mpr h)]
    rw [decide_eq_true_eq, ratDivNat_eq, ratSum_eq, sum_filterMap_facet]
  · unfold consolidate_thoughts
    rw [h]
    rfl

/-- Witness for `c1_gate_and_force` at concrete inputs. -/
theorem c1_gate_and_force_witness :
    should_consolidate [] = false ∧
    (should_consolidate c1CexMems = true ↔
      consolidation_threshold ≤
        (c1CexMems.map
            (fun m => (facetNum m "memory_consolidation_need").getD 0)).sum
          / (c1CexMems.length : ℚ)) ∧
    consolidate_thoughts c1CexMems ⟨some true, none⟩ =
      processGroups ((group_related_thoughts c1CexMems).take 5) :=
  ⟨(c1_gate_and_force [] ⟨none, none⟩).1 (by decide),
   (c1_gate_and_force c1CexMems ⟨none, none⟩).2.1 (by decide),
   (c1_gate_and_force c1CexMems ⟨some true, none⟩).2.2 rfl⟩

/-- **C2 counterexample.**  At equal timestamps and Jaccard similarity
exactly 0.3 the claim's predicate (threshold inclusive) holds, but
`are_thoughts_related` uses the strict comparison `> 0.3` and answers
false. -/
theorem c2_counterexample :
    specRelated c2Mem1 c2Mem2 ∧
    natDivNat (wordSet c2Mem1.content ∩ wordSet c2Mem2.content).card
        (wordSet c2Mem1.content ∪ wordSet c2Mem2.content).card = mkRat 3 10 ∧
    are_thoughts_related c2Mem1 c2Mem2 = false := by
  decide

/-- **C2 (amended).**  The predicate holds iff the timestamp
difference is at most 3600 seconds AND the Jaccard similarity of the
lower-cased whitespace-token sets is *strictly greater than* 0.3 (the
boundary value itself does not satisfy it). -/
theorem c2_related_characterization (t1 t2 : Memory) :
    are_thoughts_related t1 t2 = true ↔
      ((t1.timestamp - t2.timestamp).natAbs ≤ 3600 ∧
        (3 : ℚ) / 10 <
          ((wordSet t1.content ∩ wordSet t2.content).card : ℚ)
            / ((wordSet t1.content ∪ wordSet t2.content).card : ℚ)) := by
  have h310 : (mkRat 3 10 : ℚ) = 3 / 10 := by
    rw [Rat.mkRat_eq_div]; norm_num
  unfold are_thoughts_related
  by_cases h : 3600 < (t1.timestamp - t2.timestamp).natAbs
  · rw [if_pos h]
    simp [Nat.lt_iff_add_one_le] at h ⊢
    omega
  · rw [if_neg h]
    rw [decide_eq_true_eq, natDivNat_eq, h310]
    simp [Nat.not_lt.mp h, and_comm]

/-! ## C3 — grouping invariants -/

/-- Indices of the related-memory scan are outside `i :: used`. -/
theorem rel_fst_not_mem {all : List (ℕ × Memory)} {m : Memory} {i : ℕ}
    {used : List ℕ} {j : ℕ}
    (hj : j ∈ (all.filter
      (fun p => decide (p.1 ∉ i :: used) && are_thoughts_related m p.2)).map
        Prod.fst) :
    j ∉ i :: used := by
  obtain ⟨p, hp, rfl⟩ := List.mem_map.mp hj
  have h2 := (List.mem_filter.mp hp).2
  have h3 := (Bool.and_eq_true_iff.mp h2).1
  exact of_decide_eq_true h3

/-- Every group emitted by `groupStep` has at least two members. -/
theorem groupStep_two_le (all : List (ℕ × Memory)) :
    ∀ (rest : List (ℕ × Memory)) (used : List ℕ)
      (g : List (ℕ × Memory)), g ∈ groupStep all rest used → 2 ≤ g.length := by
  intro rest
  induction rest with
  | nil => intro used g h; simp [groupStep] at h
  | cons p rest ih =>
    intro used g h
    obtain ⟨i, m⟩ := p
    simp only [groupStep] at h
    split at h
    · exact ih _ _ h
    · split at h
      next h2 =>
        rcases List.mem_cons.mp h with rfl | h3
        · exact h2
        · exact ih _ _ h3
      next => exact ih _ _ h

/-- Indices of groups emitted by `groupStep` avoid the `used` set. -/
theorem groupStep_fresh (all : List (ℕ × Memory)) :
    ∀ (rest : List (ℕ × Memory)) (used : List ℕ)
      (g : List (ℕ × Memory)), g ∈ groupStep all rest used →
      ∀ j ∈ g.map Prod.fst, j ∉ used := by
  intro rest
  induction rest with
  | nil => intro used g h; simp [groupStep] at h
  | cons p rest ih =>
    intro used g h j hj
    obtain ⟨i, m⟩ := p
    simp only [groupStep] at h
    split at h
    · exact ih _ _ h j hj
    next hi =>
      split at h
      · rcases List.mem_cons.mp h with rfl | h3
        · rw [List.map_cons] at hj
          rcases List.mem_cons.mp hj with rfl | hj2
          · exact hi
          · exact fun hu => rel_fst_not_mem hj2 (List.mem_cons_of_mem _ hu)
        · intro hu
          exact ih _ _ h3 j hj
            (List.mem_append_left _ (List.mem_cons_of_mem _ hu))
      · intro hu
        exact ih _ _ h j hj
          (List.mem_append_left _ (List.mem_cons_of_mem _ hu))

/-- Distinct groups emitted by `groupStep` have disjoint index sets. -/
theorem groupStep_disjoint (all : List (ℕ × Memory)) :
    ∀ (rest : List (ℕ × Memory)) (used : List ℕ),
      (groupStep all rest used).Pairwise
        (fun g1 g2 => ∀ j ∈ g1.map Prod.fst, j ∉ g2.map Prod.fst) := by
  intro rest
  induction rest with
  | nil => intro used; simp [groupStep]
  | cons p rest ih =>
    intro used
    obtain ⟨i, m⟩ := p
    simp only [groupStep]
    split
    · exact ih _
    next hi =>
      split
      next h2 =>
        refine List.Pairwise.cons ?_ (ih _)
        intro g2 hg2 j hj
        intro hj2
        have hfresh := groupStep_fresh all rest _ g2 hg2 j hj2
        rw [List.map_cons] at hj
        rcases List.mem_cons.mp hj with rfl | hj3
        · exact hfresh (List.mem_append_left _ (List.mem_cons_self _ _))
        · exact hfresh (List.mem_append_right _ hj3)
      · exact ih _

/-- Within one emitted group the indices are distinct (given distinct
indices in the scanned list, which `List.enum` provides). -/
theorem groupStep_nodup (all : List (ℕ × Memory))
    (hall : (all.map Prod.fst).Nodup) :
    ∀ (rest : List (ℕ × Memory)) (used : List ℕ)
      (g : List (ℕ × Memory)), g ∈ groupStep all rest used →
      (g.map Prod.fst).Nodup := by
  intro rest
  induction rest with
  | nil => intro used g h; simp [groupStep] at h
  | cons p rest ih =>
    intro used g h
    obtain ⟨i, m⟩ := p
    simp only [groupStep] at h
    split at h
    · exact ih _ _ h
    next hi =>
      split at h
      next h2 =>
        rcases List.mem_cons.mp h with rfl | h3
        · rw [List.map_cons]
          refine List.Nodup.cons ?_ ?_
          · intro hmem
            exact rel_fst_not_mem hmem (List.mem_cons_self _ _)
          · exact List.Nodup.sublist
              ((List.filter_sublist _).map Prod.fst) hall
        · exact ih _ _ h3
      · exact ih _ _ h

/-- Members of emitted groups come from the scanned list. -/
theorem groupStep_subset (all : List (ℕ × Memory)) :
    ∀ (rest : List (ℕ × Memory)) (used : List ℕ)
      (g : List (ℕ × Memory)), g ∈ groupStep all rest used →
      ∀ p ∈ g, p ∈ all ∨ p ∈ rest := by
  intro rest
  induction rest with
  | nil => intro used g h; simp [groupStep] at h
  | cons q rest ih =>
    intro used g h p hp
    obtain ⟨i, m⟩ := q
    simp only [groupStep] at h
    split at h
    · exact (ih _ _ h p hp).imp_right (List.mem_cons_of_mem _)
    · split at h
      next h2 =>
        rcases List.mem_cons.mp h with rfl | h3
        · rcases List.mem_cons.mp hp with rfl | hp2
          · exact Or.inr (List.mem_cons_self _ _)
          · exact Or.inl (List.mem_of_mem_filter hp2)
        · exact (ih _ _ h3 p hp).imp_right (List.mem_cons_of_mem _)
      · exact (ih _ _ h p hp).imp_right (List.mem_cons_of_mem _)

/-- Two memories with equal content having at least one token, within
the one-hour window, satisfy `are_thoughts_related` (their Jaccard
similarity is 1). -/
theorem related_of_same_content {m1 m2 : Memory}
    (hc : m1.content = m2.content) (hw : wordSet m1.content ≠ ∅)
    (ht : (m1.timestamp - m2.timestamp).natAbs ≤ 3600) :
    are_thoughts_related m1 m2 = true := by
  unfold are_thoughts_related
  rw [if_neg (Nat.not_lt.mpr ht)]
  rw [decide_eq_true_eq, hc, Finset.inter_self, Finset.union_self, natDivNat_eq]
  have hcard : (0 : ℚ) < ((wordSet m2.content).card : ℚ) := by
    have h1 : 0 < (wordSet m2.content).card :=
      Finset.card_pos.mpr (Finset.nonempty_iff_ne_empty.mpr (hc ▸ hw))
    exact_mod_cast h1
  rw [div_self (ne_of_gt hcard), Rat.mkRat_eq_div]
  norm_num

/-- Memories more than one hour apart are never related. -/
theorem unrelated_of_far {m1 m2 : Memory}
    (ht : 3600 < (m1.timestamp - m2.timestamp).natAbs) :
    are_thoughts_related m1 m2 = false := by
  unfold are_thoughts_related
  rw [if_pos ht]

/-- On a two-element input whose members are related, the grouping
returns the single group of both. -/
theorem group_pair_of_related {m1 m2 : Memory}
    (h : are_thoughts_related m1 m2 = true) :
    group_related_thoughts [m1, m2] = [[m1, m2]] := by
  unfold group_related_thoughts group_related_idx
  have he : ([m1, m2] : List Memory).enum = [(0, m1), (1, m2)] := rfl
  rw [he]
  simp [groupStep, h, List.filter]

/-- On a two-element input whose members are not related, the grouping
returns no groups. -/
theorem group_pair_of_unrelated {m1 m2 : Memory}
    (h : are_thoughts_related m1 m2 = false) :
    group_related_thoughts [m1, m2] = [] := by
  unfold group_related_thoughts group_related_idx
  have he : ([m1, m2] : List Memory).enum = [(0, m1), (1, m2)] := rfl
  rw [he]
  simp [groupStep, h, List.filter]

/-- **C3 counterexample.**  Two memories 10 minutes apart with
identical *non-empty* content (a lone space) are NOT grouped: the
content has no whitespace tokens, so the Rust code computes the
Jaccard similarity `0.0/0.0 = NaN`, `NaN > 0.3` is false, and no
group forms — the claim says they end up in a common group. -/
theorem c3_counterexample :
    c3Cex1.content = c3Cex2.content ∧ c3Cex1.content ≠ "" ∧
    (c3Cex1.timestamp - c3Cex2.timestamp).natAbs = 600 ∧
    group_related_thoughts [c3Cex1, c3Cex2] = [] := by
  decide

/-- **C3 (amended).**  `group_related_thoughts` only returns groups of
size ≥ 2; every group member is drawn from the input (index in range,
value in the list); the index sets of distinct groups are disjoint and
each group's indices are distinct; two memories 10 minutes apart with
identical content *containing at least one token* end up in a common
group, while two identical-content memories 2 hours apart do not.
(The claim's "non-empty content" must be strengthened to "content with
at least one whitespace-separated token", see `c3_counterexample`.) -/
theorem c3_grouping (mems : List Memory) (m1 m2 : Memory) :
    (∀ g ∈ group_related_thoughts mems, 2 ≤ g.length) ∧
    (∀ g ∈ group_related_idx mems, ∀ p ∈ g, p.1 < mems.length ∧ p.2 ∈ mems) ∧
    (group_related_idx mems).Pairwise
      (fun g1 g2 => ∀ j ∈ g1.map Prod.fst, j ∉ g2.map Prod.fst) ∧
    (∀ g ∈ group_related_idx mems, (g.map Prod.fst).Nodup) ∧
    (m1.content = m2.content → wordSet m1.content ≠ ∅ →
      (m1.timestamp - m2.timestamp).natAbs = 600 →
      group_related_thoughts [m1, m2] = [[m1, m2]]) ∧
    (m1.content = m2.content → (m1.timestamp - m2.timestamp).natAbs = 7200 →
      group_related_thoughts [m1, m2] = []) := by
  refine ⟨?_, ?_, ?_, ?_, ?_, ?_⟩
  · intro g hg
    obtain ⟨g0, hg0, rfl⟩ := List.mem_map.mp hg
    rw [List.length_map]
    exact groupStep_two_le _ _ _ _ hg0
  · intro g hg p hp
    have hmem : p ∈ mems.enum := by
      rcases groupStep_subset _ _ _ _ hg p hp with h | h <;> exact h
    obtain ⟨i, x⟩ := p
    obtain ⟨hlt, hx⟩ := List.mem_enum hmem
    exact ⟨hlt, hx ▸ List.getElem_mem hlt⟩
  · exact groupStep_disjoint _ _ _
  · intro g hg
    refine groupStep_nodup _ ?_ _ _ _ hg
    rw [List.enum_map_fst]
    exact List.nodup_range _
  · intro hc hw ht
    exact group_pair_of_related
      (related_of_same_content hc hw (by rw [ht]; norm_num))
  · intro hc ht
    exact group_pair_of_unrelated (unrelated_of_far (by rw [ht]; norm_num))

/-- Witness for `c3_grouping` at concrete inputs. -/
theorem c3_grouping_witness :
    group_related_thoughts [c3Wit1, c3Wit2] = [[c3Wit1, c3Wit2]] ∧
    group_related_thoughts [c3Wit1, c3Wit3] = [] :=
  ⟨(c3_grouping [] c3Wit1 c3Wit2).2.2.2.2.1 rfl (by decide) (by decide),
   (c3_grouping [] c3Wit1 c3Wit3).2.2.2.2.2 rfl (by decide)⟩

/-! ## C5 — heuristic fallback thought -/

/-- **C5.**  The fallback thought's content, metrics and suggested
consolidation list do not depend on the generated id or the current
time (they are a pure function of the memory list and the query), and
the metrics follow the fixed rules: self_awareness 0.6 iff any
memories (else 0.3); consolidation need 0.7 iff more than 3 memories
(else 0.4); emotional stability 0.5 always; creative insight 0.6 iff
a Vision and a Speech memory are both present among the first 5 (else
0.3); suggested ids are the first 3 memory ids when there are more
than 2 memories, else none. -/
theorem c5_fallback_rules (memories : List Memory) (q : Option String)
    (id1 id2 : String) (now1 now2 : Int) :
    ((generate_fallback_thought memories q id1 now1).thought
        = (generate_fallback_thought memories q id2 now2).thought) ∧
    ((generate_fallback_thought memories q id1 now1).metrics
        = (generate_fallback_thought memories q id2 now2).metrics) ∧
    ((generate_fallback_thought memories q id1 now1).consolidate
        = (generate_fallback_thought memories q id2 now2).consolidate) ∧
    ((generate_fallback_thought memories q id1 now1).metrics.self_awareness
        = if 0 < memories.length then mkRat 6 10 else mkRat 3 10) ∧
    ((generate_fallback_thought memories q id1 now1).metrics.memory_consolidation_need
        = if 3 < memories.length then mkRat 7 10 else mkRat 4 10) ∧
    ((generate_fallback_thought memories q id1 now1).metrics.emotional_stability
        = mkRat 5 10) ∧
    ((generate_fallback_thought memories q id1 now1).metrics.creative_insight
        = if (∃ m ∈ memories.take 5, m.modality = Modality.Vision)
              ∧ (∃ m ∈ memories.take 5, m.modality = Modality.Speech)
          then mkRat 6 10 else mkRat 3 10) ∧
    ((generate_fallback_thought memories q id1 now1).consolidate
        = if 2 < memories.length then (memories.take 3).map Memory.id else []) := by
  refine ⟨rfl, rfl, rfl, rfl, rfl, rfl, ?_, rfl⟩
  show (if 0 < (memories.take 5).countP (fun m => decide (m.modality = Modality.Vision))
          ∧ 0 < (memories.take 5).countP (fun m => decide (m.modality = Modality.Speech))
        then mkRat 6 10 else mkRat 3 10) = _
  refine if_congr (and_congr ?_ ?_) rfl rfl <;>
    · rw [List.countP_pos_iff]
      simp only [decide_eq_true_eq]

/-- **C6 counterexample.**  The input `"}a{"` contains braces, but its
first `{` lies two positions after its last `}`; the claim says the
parser returns an error on such input, while the Rust code panics on
the reversed slice `&response[2..=0]` (modelled as `none`: neither a
parsed thought nor an error value is produced). -/
theorem c6_counterexample :
    parse_reflection_response jsonParseFail "\x7da\x7b" = none := by
  rfl

/-- **C6 (amended).**  Parsing succeeds exactly on inputs where the
span from the first `{` to the last `}` parses as JSON of the required
shape with non-empty title, non-empty thought and at most 5
consolidate entries; every other input yields an error — EXCEPT that
when the first `{` occurs at least two positions after the last `}`
the slice operation panics instead of returning an error. -/
theorem c6_parse_characterization
    (jsonParse : String → Option ReflectionResponse) (response : String) :
    (∀ r : ReflectionResponse,
      parse_reflection_response jsonParse response = some (Except.ok r) ↔
        ∃ s e, response.toList.findIdx? (fun c => c == lbrace) = some s ∧
          lastIdxOf rbrace response.toList = some e ∧ s ≤ e ∧
          jsonParse (String.mk ((response.toList.drop s).take (e + 1 - s)))
            = some r ∧
          r.title ≠ "" ∧ r.thought ≠ "" ∧ r.consolidate.length ≤ 5) ∧
    (parse_reflection_response jsonParse response = none ↔
      ∃ s e, response.toList.findIdx? (fun c => c == lbrace) = some s ∧
        lastIdxOf rbrace response.toList = some e ∧ e + 2 ≤ s) := by
  unfold parse_reflection_response
  simp only [String.toList]
  cases h1 : List.findIdx? (fun c => c == lbrace) response.data with
  | none => simp [h1]
  | some s =>
    cases h2 : lastIdxOf rbrace response.data with
    | none => simp [h1, h2]
    | some e =>
      simp only [h1, h2]
      by_cases hse : s ≤ e
      · rw [if_pos hse]
        cases h3 : jsonParse (String.mk ((response.data.drop s).take (e + 1 - s))) with
        | none =>
          constructor
          · intro r
            simp only [h3]
            constructor
            · intro habs
              simp at habs
            · rintro ⟨s1, e1, hs1, he1, _, hjson, _⟩
              obtain rfl : s = s1 := by simpa using hs1
              obtain rfl : e = e1 := by simpa using he1
              rw [h3] at hjson
              simp at hjson
          · simp only [h3]
            simp
            omega
        | some parsed =>
          by_cases h4 : parsed.title = "" ∨ parsed.thought = ""
          · constructor
            · intro r
              simp only [h3]
              rw [if_pos h4]
              constructor
              · intro habs
                simp at habs
              · rintro ⟨s1, e1, hs1, he1, _, hjson, htitle, hthought, _⟩
                obtain rfl : s = s1 := by simpa using hs1
                obtain rfl : e = e1 := by simpa using he1
                rw [h3] at hjson
                obtain rfl : parsed = r := by simpa using hjson
                rcases h4 with h4 | h4
                · exact absurd h4 htitle
                · exact absurd h4 hthought
            · simp only [h3]
              rw [if_pos h4]
              simp
              omega
          · by_cases h5 : 5 < parsed.consolidate.length
            · constructor
              · intro r
                simp only [h3]
                rw [if_neg h4, if_pos h5]
                constructor
                · intro habs
                  simp at habs
                · rintro ⟨s1, e1, hs1, he1, _, hjson, _, _, hlen⟩
                  obtain rfl : s = s1 := by simpa using hs1
                  obtain rfl : e = e1 := by simpa using he1
                  rw [h3] at hjson
                  obtain rfl : parsed = r := by simpa using hjson
                  omega
              · simp only [h3]
                rw [if_neg h4, if_pos h5]
                simp
                omega
            · push_neg at h4
              constructor
              · intro r
                simp only [h3]
                rw [if_neg (by push_neg; exact h4), if_neg h5]
                constructor
                · intro hok
                  obtain rfl : parsed = r := by simpa using hok
                  exact ⟨s, e, rfl, rfl, hse, h3, h4.1, h4.2, by omega⟩
                · rintro ⟨s1, e1, hs1, he1, _, hjson, _, _, _⟩
                  obtain rfl : s = s1 := by simpa using hs1
                  obtain rfl : e = e1 := by simpa using he1
                  rw [h3] at hjson
                  obtain rfl : parsed = r := by simpa using hjson
                  rfl
              · simp only [h3]
                rw [if_neg (by push_neg; exact h4), if_neg h5]
                simp
                omega
      · by_cases hse1 : s = e + 1
        · rw [if_neg hse, if_pos hse1]
          constructor
          · intro r
            constructor
            · intro habs
              simp at habs
            · rintro ⟨s1, e1, hs1, he1, hle, _⟩
              obtain rfl : s = s1 := by simpa using hs1
              obtain rfl : e = e1 := by simpa using he1
              omega
          · simp
            omega
        · rw [if_neg hse, if_neg hse1]
          constructor
          · intro r
            constructor
            · intro habs
              simp at habs
            · rintro ⟨s1, e1, hs1, he1, hle, _⟩
              obtain rfl : s = s1 := by simpa using hs1
              obtain rfl : e = e1 := by simpa using he1
              omega
          · constructor
            · intro _
              exact ⟨s, e, rfl, rfl, by omega⟩
            · intro _
              rfl

/-! ## C7 — relevance selection caps -/

/-- Memories of modality `mod` inside one per-modality bucket of a
different modality: none. -/
theorem countP_filter_other (l : List Memory) (mod mod2 : Modality)
    (hne : mod ≠ mod2) (n : ℕ) :
    ((l.filter (fun m => decide (m.modality = mod2))).take n).countP
      (fun m => decide (m.modality = mod)) = 0 := by
  rw [List.countP_eq_zero]
  intro m hm
  have h2 := List.mem_filter.mp (List.mem_of_mem_take hm)
  simp only [decide_eq_true_eq] at h2 ⊢
  intro h3
  exact hne (h3 ▸ h2.2.symm ▸ rfl)

/-- **C7.**  `select_relevant_memories` returns at most `max_count`
memories, and for every modality the number of returned memories of
that modality never exceeds the modality's cap from the
`modality_limits` policy table (8 for Vision, Speech and Text, 4 for
Concept) — for every input list, every ranking score (the abstraction
of the focus-embedding option) and every `max_count`. -/
theorem c7_select_caps (memories : List Memory)
    (score : Option (Memory → ℚ)) (max_count : ℕ) :
    (select_relevant_memories memories score max_count).length ≤ max_count ∧
    ∀ mod cap, (mod, cap) ∈ modality_limits →
      (select_relevant_memories memories score max_count).countP
        (fun m => decide (m.modality = mod)) ≤ cap := by
  constructor
  · unfold select_relevant_memories
    exact List.length_take_le _ _
  · intro mod cap hmem
    set sel : List Memory := (match score with
      | some f => sortBy (fun a b => decide (f b ≤ f a)) memories
      | none => sortBy (fun a b => decide (b.timestamp ≤ a.timestamp))
          memories) with hsel
    have hsub : (select_relevant_memories memories score max_count).countP
        (fun m => decide (m.modality = mod)) ≤
        (modality_limits.flatMap (fun ml =>
          (sel.filter (fun m => decide (m.modality = ml.1))).take ml.2)).countP
        (fun m => decide (m.modality = mod)) := by
      unfold select_relevant_memories
      rw [hsel]
      exact List.Sublist.countP_le _ (List.take_sublist _ _)
    refine le_trans hsub ?_
    have hcount : ∀ (n : ℕ) (mod2 : Modality),
        ((sel.filter (fun m => decide (m.modality = mod2))).take n).countP
          (fun m => decide (m.modality = mod)) ≤ if mod = mod2 then n else 0 := by
      intro n mod2
      by_cases h : mod = mod2
      · rw [if_pos h]
        exact le_trans (List.countP_le_length _) (List.length_take_le _ _)
      · rw [if_neg h, countP_filter_other _ _ _ h]
    have h1 := hcount 8 Modality.Vision
    have h2 := hcount 8 Modality.Speech
    have h3 := hcount 8 Modality.Text
    have h4 := hcount 4 Modality.Concept
    simp only [modality_limits, List.mem_cons, List.not_mem_nil, or_false,
      Prod.mk.injEq] at hmem
    simp only [modality_limits, List.flatMap_cons, List.flatMap_nil,
      List.append_nil, List.countP_append]
    rcases hmem with ⟨rfl, rfl⟩ | ⟨rfl, rfl⟩ | ⟨rfl, rfl⟩ | ⟨rfl, rfl⟩ <;>
      simp only [reduceCtorEq, if_true, if_false, reduceIte] at h1 h2 h3 h4 <;>
      omega

/-- Witness for `c7_select_caps` at concrete inputs. -/
theorem c7_select_caps_witness :
    (select_relevant_memories c7Mems none 2).length ≤ 2 ∧
    (select_relevant_memories c7Mems none 2).countP
      (fun m => decide (m.modality = Modality.Vision)) ≤ 8 :=
  ⟨(c7_select_caps c7Mems none 2).1,
   (c7_select_caps c7Mems none 2).2 Modality.Vision 8 (by decide)⟩

/-- **C8 counterexample.**  A memory with a pre-1970 timestamp (−1,
i.e. 1969-12-31T23:59:59) does not survive the JSONL round trip: the
loader reads `ts` with `as_u64().unwrap_or(0)`, so the negative value
collapses to `0` and the reloaded timestamp is the epoch, not the
original. -/
theorem c8_counterexample :
    (load_from_jsonl_line (append_memory_to_jsonl c8CexMem) 999).timestamp
      = 0 ∧
    c8CexMem.timestamp = -1 ∧
    (load_from_jsonl_line (append_memory_to_jsonl c8CexMem) 999).timestamp
      ≠ c8CexMem.timestamp := by
  decide

/-- **C8 (amended).**  For every memory whose timestamp is
nonnegative (on or after the epoch) — and within chrono's
representable range, which every real `DateTime` satisfies — the
JSONL round trip reproduces the memory exactly: id, timestamp to the
second, modality, content, tags, embedding (and facets). -/
theorem c8_roundtrip (m : Memory) (now : Int) (h0 : 0 ≤ m.timestamp)
    (h1 : m.timestamp ≤ chronoMaxTs) :
    load_from_jsonl_line (append_memory_to_jsonl m) now = m := by
  obtain ⟨id, ts, mod, emb, content, facets, tags⟩ := m
  simp only [append_memory_to_jsonl, load_from_jsonl_line] at *
  rw [if_pos h0]
  have hts : from_timestamp ts = some ts := by
    unfold from_timestamp chronoMinTs chronoMaxTs
    rw [if_pos ⟨by omega, h1⟩]
  rw [hts]
  cases mod <;> simp [modalityTag]

/-- Witness for `c8_roundtrip` at a concrete memory. -/
theorem c8_roundtrip_witness :
    load_from_jsonl_line (append_memory_to_jsonl c8WitMem) 7 = c8WitMem :=
  c8_roundtrip c8WitMem 7 (by decide) (by decide)

/-! ## C9 — summary slice panic -/

theorem utf8Len_nil : utf8Len [] = 0 := rfl

theorem utf8Len_cons (c : Char) (cs : List Char) :
    utf8Len (c :: cs) = c.utf8Size + utf8Len cs := by
  simp [utf8Len]

theorem isSome_option_map {α β : Type} (f : α → β) (o : Option α) :
    (o.map f).isSome = o.isSome := by
  cases o <;> rfl

/-- `utf8Take n` succeeds exactly when some prefix of the characters
has total byte length `n`, i.e. byte `n` is a character boundary. -/
theorem utf8Take_isSome_iff (cs : List Char) : ∀ n : ℕ,
    (utf8Take n cs).isSome ↔ ∃ k, utf8Len (cs.take k) = n := by
  induction cs with
  | nil =>
    intro n
    cases n with
    | zero =>
      simp only [utf8Take, Option.isSome_some, true_iff]
      exact ⟨0, rfl⟩
    | succ n =>
      refine iff_of_false (by simp [utf8Take]) ?_
      rintro ⟨k, hk⟩
      rw [List.take_nil, utf8Len_nil] at hk
      omega
  | cons c cs ih =>
    intro n
    cases n with
    | zero =>
      simp only [utf8Take, Option.isSome_some, true_iff]
      exact ⟨0, rfl⟩
    | succ n =>
      simp only [utf8Take]
      by_cases h : c.utf8Size ≤ n + 1
      · rw [if_pos h, isSome_option_map, ih (n + 1 - c.utf8Size)]
        constructor
        · rintro ⟨k, hk⟩
          refine ⟨k + 1, ?_⟩
          rw [List.take_succ_cons, utf8Len_cons, hk]
          omega
        · rintro ⟨k, hk⟩
          cases k with
          | zero =>
            rw [List.take_zero, utf8Len_nil] at hk
            omega
          | succ k =>
            rw [List.take_succ_cons, utf8Len_cons] at hk
            exact ⟨k, by omega⟩
      · rw [if_neg h]
        refine iff_of_false (by simp) ?_
        rintro ⟨k, hk⟩
        cases k with
        | zero =>
          rw [List.take_zero, utf8Len_nil] at hk
          omega
        | succ k =>
          rw [List.take_succ_cons, utf8Len_cons] at hk
          have h1 : 1 ≤ c.utf8Size := Nat.one_le_iff_ne_zero.mpr (by
            have := Char.utf8Size_pos c
            omega)
          omega

/-- The summary loop succeeds exactly when every member's excerpt
does. -/
theorem collectSummaries_isSome (l : List Memory) :
    (collectSummaries l).isSome ↔
      ∀ t ∈ l, (summarize_content t.content).isSome := by
  induction l with
  | nil => simp [collectSummaries]
  | cons t ts ih =>
    simp only [collectSummaries]
    cases h1 : summarize_content t.content with
    | none => simp [h1]
    | some s =>
      cases h2 : collectSummaries ts with
      | none =>
        rw [h2] at ih
        simp only [Option.isSome_none, Bool.false_eq_true, false_iff,
          not_forall] at ih ⊢
        obtain ⟨t2, ht2, hne⟩ := ih
        exact ⟨t2, List.mem_cons_of_mem _ ht2, hne⟩
      | some rest =>
        rw [h2] at ih
        simp only [Option.isSome_some, true_iff] at ih
        simp only [Option.isSome_some, true_iff]
        intro t2 ht2
        rcases List.mem_cons.mp ht2 with rfl | ht3
        · rw [h1]; rfl
        · exact ih t2 ht3

/-- The per-content excerpt succeeds exactly when a content over 100
bytes has a character boundary at byte 97. -/
theorem summarize_content_isSome (content : String) :
    (summarize_content content).isSome ↔
      (100 < utf8Len content.toList →
        ∃ k, utf8Len (content.toList.take k) = 97) := by
  unfold summarize_content
  by_cases h : 100 < utf8Len content.toList
  · rw [if_pos h, isSome_option_map, utf8Take_isSome_iff]
    exact ⟨fun hex _ => hex, fun himp => himp h⟩
  · rw [if_neg h]
    exact iff_of_true rfl (fun h2 => absurd h2 h)

/-- **C9.**  `generate_summary` is not total: on the concrete group
whose single member's 102-byte content has a 2-byte character
straddling byte 97, the slice `&content[..97]` panics (modelled
`none`); and the function is panic-free exactly on groups in which
every member content longer than 100 bytes has a character boundary
at byte 97. -/
theorem c9_summary_panic :
    (100 < utf8Len c9PanicMem.content.toList ∧
      generate_summary [c9PanicMem] = none) ∧
    (∀ thoughts : List Memory,
      (generate_summary thoughts).isSome ↔
        ∀ t ∈ thoughts, 100 < utf8Len t.content.toList →
          ∃ k, utf8Len (t.content.toList.take k) = 97) := by
  constructor
  · exact ⟨by decide, by decide⟩
  · intro thoughts
    have hw : (generate_summary thoughts).isSome
        = (collectSummaries thoughts).isSome := by
      unfold generate_summary
      cases collectSummaries thoughts <;> rfl
    rw [hw, collectSummaries_isSome]
    constructor
    · intro h t ht
      exact (summarize_content_isSome t.content).mp (h t ht)
    · intro h t ht
      exact (summarize_content_isSome t.content).mpr (h t ht)

/-! ## C10 — experiences listing truncates before sorting -/

theorem insertSorted_perm {α : Type} (le : α → α → Bool) (a : α)
    (l : List α) : (insertSorted le a l).Perm (a :: l) := by
  induction l with
  | nil => rfl
  | cons b bs ih =>
    simp only [insertSorted]
    split
    · rfl
    · exact (ih.cons b).trans (List.Perm.swap a b bs)

/-- `sortBy` permutes its input. -/
theorem sortBy_perm {α : Type} (le : α → α → Bool) (l : List α) :
    (sortBy le l).Perm l := by
  induction l with
  | nil => rfl
  | cons a as ih =>
    exact (insertSorted_perm le a (sortBy le as)).trans (ih.cons a)

theorem insertSorted_pairwise {α : Type} {le : α → α → Bool}
    (htot : ∀ a b, le a b = true ∨ le b a = true)
    (htrans : ∀ a b c, le a b = true → le b c = true → le a c = true)
    (a : α) (l : List α) (h : l.Pairwise (fun x y => le x y = true)) :
    (insertSorted le a l).Pairwise (fun x y => le x y = true) := by
  induction l with
  | nil => simp [insertSorted]
  | cons b bs ih =>
    rcases List.pairwise_cons.mp h with ⟨hb, hbs⟩
    simp only [insertSorted]
    split
    next hab =>
      refine List.pairwise_cons.mpr ⟨?_, h⟩
      intro x hx
      rcases List.mem_cons.mp hx with rfl | hx2
      · exact hab
      · exact htrans a b x hab (hb x hx2)
    next hab =>
      refine List.pairwise_cons.mpr ⟨?_, ih hbs⟩
      intro x hx
      have hx2 := (insertSorted_perm le a bs).mem_iff.mp hx
      rcases List.mem_cons.mp hx2 with rfl | hx3
      · rcases htot b x with h2 | h2
        · exact h2
        · exact absurd h2 (by simpa using hab)
      · exact hb x hx3

/-- `sortBy` output is ordered by its comparator (for a total
transitive comparator). -/
theorem sortBy_pairwise {α : Type} {le : α → α → Bool}
    (htot : ∀ a b, le a b = true ∨ le b a = true)
    (htrans : ∀ a b c, le a b = true → le b c = true → le a c = true)
    (l : List α) :
    (sortBy le l).Pairwise (fun x y => le x y = true) := by
  induction l with
  | nil => simp [sortBy]
  | cons a as ih => exact insertSorted_pairwise htot htrans a _ ih

/-- **C10.**  `get_ltm_experiences` truncates to `limit` BEFORE
sorting: the response is exactly the stable descending-`created_at`
sort of the first `limit` elements of the store's enumeration (a
permutation of that prefix, in descending order) — so with the
enumeration `[old, new]` and `limit = 1` the newer experience is
dropped even though it is the most recent. -/
theorem c10_truncate_before_sort (stored : List Experience) (l : ℕ) :
    (get_ltm_experiences stored (some l)
        = sortBy (fun a b => decide (b.created_at ≤ a.created_at))
            ((get_experiences stored).take l)) ∧
    (get_ltm_experiences stored (some l)).Perm
      ((get_experiences stored).take l) ∧
    (get_ltm_experiences stored (some l)).Pairwise
      (fun a b => b.created_at ≤ a.created_at) ∧
    (get_ltm_experiences c10Stored (some 1) = [c10Old] ∧
      c10Old.created_at < c10New.created_at ∧
      c10New ∉ get_ltm_experiences c10Stored (some 1)) := by
  refine ⟨rfl, sortBy_perm _ _, ?_, by decide, by decide, by decide⟩
  have hp := @sortBy_pairwise Experience
    (fun a b : Experience => decide (b.created_at ≤ a.created_at))
    (fun a b => by
      rcases le_total b.created_at a.created_at with h | h
      · exact Or.inl (decide_eq_true h)
      · exact Or.inr (decide_eq_true h))
    (fun a b c hab hbc => by
      have h1 := of_decide_eq_true hab
      have h2 := of_decide_eq_true hbc
      exact decide_eq_true (le_trans h2 h1))
    ((get_experiences stored).take l)
  exact hp.imp (fun h => of_decide_eq_true h)
